import Mathlib

/-!
Verification of the Stover post-processing pipeline.

The pipeline (Stover_postprocess.py) loads per-county DayCent simulation
results, converts units with the factors of constants.py, computes annual
SOC differences, aggregates means per (fips, stover_removal) group, merges
the five aggregated tables, pivots by treatment and derives relative
metrics, and finally bins values for choropleth maps.

Numeric columns are modelled as rationals; pandas NaN cells are modelled
as `none : Option ℚ`.
-/

namespace Stover

/-- Conversion factor from constants.py: `ha_per_ACRE = 0.404686`. -/
def ha_per_ACRE : ℚ := 404686 / 1000000

/-- Conversion factor from constants.py: `kg_per_bu_CORN = 25.4012`. -/
def kg_per_bu_CORN : ℚ := 254012 / 10000

/-- Conversion factor from constants.py: `kg_per_bu_SOY = 27.2`. -/
def kg_per_bu_SOY : ℚ := 272 / 10

/-- Conversion factor from constants.py: `g_m2_to_Mg_ha = 0.01`. -/
def g_m2_to_Mg_ha : ℚ := 1 / 100

/-- The four stover-removal management scenarios (values of the
`stover_removal` column). -/
inductive Treatment : Type
  | G
  | G25S
  | G50S
  | G75S
deriving DecidableEq

/-- Position of a treatment in the ascending sort order of the
`stover_removal` strings ("G" < "G25S" < "G50S" < "G75S"). -/
def Treatment.idx : Treatment → ℕ
  | .G => 0
  | .G25S => 1
  | .G50S => 2
  | .G75S => 3

/-- One row of a per-year results table: columns `fips`, `stover_removal`,
`simyear` and the (already converted) value column. -/
structure Row where
  fips : ℕ
  removal : Treatment
  simyear : ℕ
  value : ℚ
deriving DecidableEq

/-- The sort key used by `soc_df.sort_values(["fips", "stover_removal", "simyear"])`. -/
def Row.key (r : Row) : ℕ × ℕ × ℕ := (r.fips, r.removal.idx, r.simyear)

/-- Lexicographic order on rows by (fips, stover_removal, simyear),
the order used by `sort_values`. -/
def rowLe (a b : Row) : Prop :=
  a.fips < b.fips ∨ (a.fips = b.fips ∧
    (a.removal.idx < b.removal.idx ∨ (a.removal.idx = b.removal.idx ∧ a.simyear ≤ b.simyear)))

instance : DecidableRel rowLe := fun a b => by
  unfold rowLe; infer_instance

instance : IsTotal Row rowLe := by
  constructor; intro a b; unfold rowLe; omega

instance : IsTrans Row rowLe := by
  constructor; intro a b c; unfold rowLe; omega

/-- Embedding of `soc_df.sort_values(["fips", "stover_removal", "simyear"])`. -/
def sortValues (t : List Row) : List Row := List.insertionSort rowLe t

/-- Tail of `Series.diff()`: each row is paired with its value minus the
value of the preceding row (`prev` is the value of the row just before the
list). -/
def diffFrom (prev : ℚ) : List Row → List (Row × Option ℚ)
  | [] => []
  | r :: rs => (r, some (r.value - prev)) :: diffFrom r.value rs

/-- Embedding of `soc_df["dSOC_MgC_ha-1"] = soc_df["SOC_MgC_ha-1"].diff()`:
pair each row with its `diff` value; the very first row gets NaN (`none`). -/
def withDiff : List Row → List (Row × Option ℚ)
  | [] => []
  | r :: rs => (r, none) :: diffFrom r.value rs

/-- Embedding of the SOC differencing block (sort, diff, then
`soc_df = soc_df[(soc_df["simyear"] != 2011)]`). -/
def socDiff (t : List Row) : List (Row × Option ℚ) :=
  (withDiff (sortValues t)).filter (fun p => p.1.simyear ≠ 2011)

/-- Embedding of a unit-conversion block: the raw value column is scaled by
`factor`, stored under the new column name, and the raw column is dropped;
net effect is that the single value column is scaled in place. -/
def convertUnits (factor : ℚ) (t : List Row) : List Row :=
  t.map (fun r => { r with value := r.value * factor })

/-- The corn-yield conversion factor `(kg_per_bu_CORN * 0.001) / ha_per_ACRE`. -/
def cornFactor : ℚ := (kg_per_bu_CORN * (1 / 1000)) / ha_per_ACRE

/-- The soy-yield conversion factor `(kg_per_bu_SOY * 0.001) / ha_per_ACRE`. -/
def soyFactor : ℚ := (kg_per_bu_SOY * (1 / 1000)) / ha_per_ACRE

/-- The group key of `groupby(["fips", "stover_removal"])`. -/
def gkey (r : Row) : ℕ × Treatment := (r.fips, r.removal)

/-- Ascending order on group keys, matching pandas groupby's sorted output. -/
def keyLe (a b : ℕ × Treatment) : Prop :=
  a.1 < b.1 ∨ (a.1 = b.1 ∧ a.2.idx ≤ b.2.idx)

instance : DecidableRel keyLe := fun a b => by
  unfold keyLe; infer_instance

instance : IsTotal (ℕ × Treatment) keyLe := by
  constructor; intro a b; unfold keyLe; omega

instance : IsTrans (ℕ × Treatment) keyLe := by
  constructor; intro a b c; unfold keyLe; omega

instance : IsAntisymm (ℕ × Treatment) keyLe := by
  constructor
  intro a b hab hba
  have hidx : ∀ x y : Treatment, x.idx = y.idx → x = y := by
    intro x y h
    cases x <;> cases y <;> first | rfl | (exfalso; simp [Treatment.idx] at h)
  have h1 : a.1 = b.1 ∧ a.2.idx = b.2.idx := by
    unfold keyLe at hab hba; omega
  have h2 := hidx a.2 b.2 h1.2
  obtain ⟨a1, a2⟩ := a
  obtain ⟨b1, b2⟩ := b
  simp only at h1 h2
  rw [h1.1, h2]

/-- The rows of `t` belonging to group `k`. -/
def groupRows (t : List Row) (k : ℕ × Treatment) : List Row :=
  t.filter (fun r => gkey r = k)

/-- Arithmetic mean of the value column over group `k` (pandas `.mean()`). -/
def groupMean (t : List Row) (k : ℕ × Treatment) : ℚ :=
  ((groupRows t k).map Row.value).sum / ((groupRows t k).length : ℚ)

/-- Embedding of `df.groupby(["fips", "stover_removal"]).mean()`: one row
per distinct group key, keys in ascending order, value = group mean. -/
def groupbyMean (t : List Row) : List ((ℕ × Treatment) × ℚ) :=
  (List.insertionSort keyLe (t.map gkey).dedup).map (fun k => (k, groupMean t k))

/-- First-match lookup of a group key in a keyed table. -/
def lookupKey {α : Type} (k : ℕ × Treatment) : List ((ℕ × Treatment) × α) → Option α
  | [] => none
  | p :: rest => if p.1 = k then some p.2 else lookupKey k rest

/-- Key column of a keyed table. -/
def keysOf {α : Type} (t : List ((ℕ × Treatment) × α)) : List (ℕ × Treatment) :=
  t.map Prod.fst

/-- Embedding of `pd.merge(t1, t2, on=["fips", "stover_removal"])` with the
default inner-join semantics: a left row survives exactly when its key also
occurs on the right. -/
def innerMerge {α β : Type} :
    List ((ℕ × Treatment) × α) → List ((ℕ × Treatment) × β) →
      List ((ℕ × Treatment) × (α × β))
  | [], _ => []
  | p :: rest, t2 =>
    match lookupKey p.1 t2 with
    | some b => (p.1, (p.2, b)) :: innerMerge rest t2
    | none => innerMerge rest t2

/-- The merged value tuple: ((((corn, soy), stover), dSOC), N2O). -/
abbrev MergedVal : Type := ((((ℚ × ℚ) × ℚ) × ℚ) × ℚ)

/-- Embedding of the four successive `pd.merge` calls building `df` from the
five aggregated tables corn, soy, stover, SOC and N2O. -/
def merge5 (c s st so n : List ((ℕ × Treatment) × ℚ)) :
    List ((ℕ × Treatment) × MergedVal) :=
  innerMerge (innerMerge (innerMerge (innerMerge c s) st) so) n

/-- Projection of the corn-yield column from a merged value tuple. -/
def MergedVal.corn (v : MergedVal) : ℚ := v.1.1.1.1

/-- Projection of the soy-yield column from a merged value tuple. -/
def MergedVal.soy (v : MergedVal) : ℚ := v.1.1.1.2

/-- Projection of the stover-yield column from a merged value tuple. -/
def MergedVal.stover (v : MergedVal) : ℚ := v.1.1.2

/-- Projection of the dSOC column from a merged value tuple. -/
def MergedVal.dsoc (v : MergedVal) : ℚ := v.1.2

/-- Projection of the N2O column from a merged value tuple. -/
def MergedVal.n2o (v : MergedVal) : ℚ := v.2

/-- Embedding of `df.pivot(index="fips", columns="stover_removal")`: the cell
of column (`col`, `tr`) in the row of county `f`; NaN (`none`) when the pair
(`f`, `tr`) is absent from the merged table. -/
def pivotCell (df : List ((ℕ × Treatment) × MergedVal)) (col : MergedVal → ℚ)
    (tr : Treatment) (f : ℕ) : Option ℚ :=
  (lookupKey (f, tr) df).map col

/-- Column `dSOC_G25S_relative = pivoted["dSOC"]["G25S"] - pivoted["dSOC"]["G"]`. -/
def dSOC_G25S_relative (df : List ((ℕ × Treatment) × MergedVal)) (f : ℕ) : Option ℚ :=
  Option.map₂ (fun a b => a - b) (pivotCell df MergedVal.dsoc Treatment.G25S f)
    (pivotCell df MergedVal.dsoc Treatment.G f)

/-- Column `dSOC_G50S_relative = pivoted["dSOC"]["G50S"] - pivoted["dSOC"]["G"]`. -/
def dSOC_G50S_relative (df : List ((ℕ × Treatment) × MergedVal)) (f : ℕ) : Option ℚ :=
  Option.map₂ (fun a b => a - b) (pivotCell df MergedVal.dsoc Treatment.G50S f)
    (pivotCell df MergedVal.dsoc Treatment.G f)

/-- Column `dSOC_G75S_relative = pivoted["dSOC"]["G75S"] - pivoted["dSOC"]["G"]`. -/
def dSOC_G75S_relative (df : List ((ℕ × Treatment) × MergedVal)) (f : ℕ) : Option ℚ :=
  Option.map₂ (fun a b => a - b) (pivotCell df MergedVal.dsoc Treatment.G75S f)
    (pivotCell df MergedVal.dsoc Treatment.G f)

/-- Column `dN2O_G25S_relative = pivoted["N2O"]["G25S"] - pivoted["N2O"]["G"]`. -/
def dN2O_G25S_relative (df : List ((ℕ × Treatment) × MergedVal)) (f : ℕ) : Option ℚ :=
  Option.map₂ (fun a b => a - b) (pivotCell df MergedVal.n2o Treatment.G25S f)
    (pivotCell df MergedVal.n2o Treatment.G f)

/-- Column `dN2O_G50S_relative = pivoted["N2O"]["G50S"] - pivoted["N2O"]["G"]`. -/
def dN2O_G50S_relative (df : List ((ℕ × Treatment) × MergedVal)) (f : ℕ) : Option ℚ :=
  Option.map₂ (fun a b => a - b) (pivotCell df MergedVal.n2o Treatment.G50S f)
    (pivotCell df MergedVal.n2o Treatment.G f)

/-- Column `dN2O_G75S_relative = pivoted["N2O"]["G75S"] - pivoted["N2O"]["G"]`. -/
def dN2O_G75S_relative (df : List ((ℕ × Treatment) × MergedVal)) (f : ℕ) : Option ℚ :=
  Option.map₂ (fun a b => a - b) (pivotCell df MergedVal.n2o Treatment.G75S f)
    (pivotCell df MergedVal.n2o Treatment.G f)

/-- Column `dSOC_MgStover = dSOC_G25S_relative / pivoted["stover_yield"]["G25S"]`. -/
def dSOC_MgStover (df : List ((ℕ × Treatment) × MergedVal)) (f : ℕ) : Option ℚ :=
  Option.map₂ (fun a b => a / b) (dSOC_G25S_relative df f)
    (pivotCell df MergedVal.stover Treatment.G25S f)

/-- Embedding of `np.linspace(lo, hi, num)`. -/
def linspace (lo hi : ℚ) (num : ℕ) : List ℚ :=
  if num = 0 then []
  else if num = 1 then [lo]
  else (List.range num).map (fun i : ℕ => lo + (hi - lo) * (i : ℚ) / ((num : ℚ) - 1))

/-- The `bin_list` built by `fips_mapping` from its `linspacing` parameter. -/
def bin_list (linspacing : ℚ × ℚ × ℕ) : List ℚ :=
  linspace linspacing.1 linspacing.2.1 linspacing.2.2

/-- The `rounding` flag of `fips_mapping`: initialized to `True`, reset to
`False` when `linspacing[1] < 10`. -/
def rounding (hi : ℚ) : Bool :=
  if hi < 10 then false else true

/-- Corn-yield scenario table of the end-to-end test: county 19001,
treatment G, years 2012 to 2015, raw yields 150, 160, 155, 158 bu per acre. -/
def cornScenario : List Row :=
  [⟨19001, .G, 2012, 150⟩, ⟨19001, .G, 2013, 160⟩,
   ⟨19001, .G, 2014, 155⟩, ⟨19001, .G, 2015, 158⟩]

/-- The aggregated converted corn yield of the scenario county: conversion
to Mg per ha followed by the groupby mean. -/
def cornAggValue : ℚ :=
  groupMean (convertUnits cornFactor cornScenario) (19001, .G)

/-- SOC table showing that a single-year group survives differencing when its
year is not 2011: group (1, G) has years 2011 and 2012, group (1, G25S) has
the single year 2012. -/
def cexTable : List Row :=
  [⟨1, .G, 2011, 10⟩, ⟨1, .G, 2012, 12⟩, ⟨1, .G25S, 2012, 100⟩]

/-- SOC scenario table: group (5, G) has years 2011, 2012, 2013 with values
10, 12, 15; a second group (1, G) is present as well. -/
def socScenario : List Row :=
  [⟨5, .G, 2011, 10⟩, ⟨5, .G, 2012, 12⟩, ⟨5, .G, 2013, 15⟩,
   ⟨1, .G, 2011, 7⟩, ⟨1, .G, 2012, 9⟩]

/-- SOC table in which every group starts at the sentinel year 2011. -/
def goodTable : List Row :=
  [⟨1, .G, 2011, 10⟩, ⟨1, .G, 2012, 12⟩, ⟨2, .G25S, 2011, 20⟩, ⟨2, .G25S, 2013, 26⟩]

/-- Tables used by the aggregation order-independence witness: `aggTableB` is
a permutation of `aggTableA`. -/
def aggTableA : List Row :=
  [⟨1, .G, 2012, 4⟩, ⟨1, .G, 2013, 6⟩, ⟨2, .G25S, 2012, 3⟩]

/-- Permuted (reversed) version of `aggTableA`. -/
def aggTableB : List Row := aggTableA.reverse

/-- Shorthand building a merged value tuple from its five columns. -/
def mv (a b c d e : ℚ) : MergedVal := ((((a, b), c), d), e)

/-- Merged table for county 7 with all four treatments present. -/
def pivotEx : List ((ℕ × Treatment) × MergedVal) :=
  [((7, .G), mv 1 2 3 4 5), ((7, .G25S), mv 2 3 4 6 9),
   ((7, .G50S), mv 3 4 5 8 13), ((7, .G75S), mv 4 5 6 10 17)]

/-- Per-treatment values of county 7 in `pivotEx`. -/
def vEx : Treatment → MergedVal
  | .G => mv 1 2 3 4 5
  | .G25S => mv 2 3 4 6 9
  | .G50S => mv 3 4 5 8 13
  | .G75S => mv 4 5 6 10 17

/-- Merged table where county 3 lacks the baseline treatment G while county 7
has G and G25S. -/
def pivotMissingG : List ((ℕ × Treatment) × MergedVal) :=
  [((3, .G25S), mv 1 1 1 1 1), ((7, .G), mv 1 2 3 4 5), ((7, .G25S), mv 2 3 4 6 9)]

/-- Variant of `pivotMissingG` with an extra row for county 3 only. -/
def pivotMissingG2 : List ((ℕ × Treatment) × MergedVal) :=
  pivotMissingG ++ [((3, .G50S), mv 2 2 2 2 2)]

/-- C3: unit normalization scales every row's value column by the conversion
factor (exactly, hence within the 1e-9 tolerance), replacing the raw column
by the converted one while preserving row count, row order and the key
columns fips, stover_removal and simyear. -/
theorem convertUnits_correct (factor : ℚ) (t : List Row) :
    (convertUnits factor t).length = t.length ∧
    (convertUnits factor t).map Row.value = t.map (fun r => r.value * factor) ∧
    (convertUnits factor t).map (fun r => (r.fips, r.removal, r.simyear))
      = t.map (fun r => (r.fips, r.removal, r.simyear)) := by
  refine ⟨?_, ?_, ?_⟩ <;> simp [convertUnits]

/-- Length of a linspace with at least two points. -/
theorem linspace_length (lo hi : ℚ) (n : ℕ) (hn : 2 ≤ n) :
    (linspace lo hi n).length = n := by
  have hn0 : n ≠ 0 := by omega
  have hn1 : n ≠ 1 := by omega
  unfold linspace; rw [if_neg hn0, if_neg hn1]; simp

/-- Closed form of the i-th linspace endpoint. -/
theorem linspace_getElem (lo hi : ℚ) (n : ℕ) (hn : 2 ≤ n) (i : ℕ)
    (h : i < (linspace lo hi n).length) :
    (linspace lo hi n)[i] = lo + (hi - lo) * (i : ℚ) / ((n : ℚ) - 1) := by
  have hn0 : n ≠ 0 := by omega
  have hn1 : n ≠ 1 := by omega
  have hls : linspace lo hi n
      = (List.range n).map (fun i : ℕ => lo + (hi - lo) * (i : ℚ) / ((n : ℚ) - 1)) := by
    unfold linspace; rw [if_neg hn0, if_neg hn1]
  rw [List.getElem_of_eq hls h, List.getElem_map, List.getElem_range]

/-- C8: the choropleth helper builds its binning endpoints as `n` evenly
spaced values from `lo` to `hi` inclusive (consecutive gaps all equal to
(hi - lo) / (n - 1)), and its legend-rounding flag is true exactly when the
max endpoint is at least 10. -/
theorem fips_mapping_binning (lo hi : ℚ) (n : ℕ) (hn : 2 ≤ n) :
    (linspace lo hi n).length = n ∧
    (linspace lo hi n).head? = some lo ∧
    (linspace lo hi n).getLast? = some hi ∧
    List.zipWith (fun a b => b - a) (linspace lo hi n) (linspace lo hi n).tail
      = List.replicate (n - 1) ((hi - lo) / ((n : ℚ) - 1)) ∧
    (rounding hi = true ↔ 10 ≤ hi) := by
  have hlen := linspace_length lo hi n hn
  have hd : ((n : ℚ) - 1) ≠ 0 := by
    have h1 : (1 : ℚ) < (n : ℚ) := by exact_mod_cast (by omega : 1 < n)
    intro h; rw [sub_eq_zero] at h; exact absurd h.symm (ne_of_lt h1)
  refine ⟨hlen, ?_, ?_, ?_, ?_⟩
  · rw [List.head?_eq_getElem?, List.getElem?_eq_getElem (by omega)]
    rw [linspace_getElem lo hi n hn 0 (by omega)]
    norm_num
  · rw [List.getLast?_eq_getElem?, hlen, List.getElem?_eq_getElem (by omega)]
    rw [linspace_getElem lo hi n hn (n - 1) (by omega)]
    have hcast : ((n - 1 : ℕ) : ℚ) = (n : ℚ) - 1 := by
      push_cast [Nat.cast_sub (by omega : 1 ≤ n)]; ring
    rw [hcast]
    field_simp
  · apply List.ext_getElem
    · simp [hlen]
    · intro i h1 h2
      have hi1 : i + 1 < n := by
        simp only [List.length_zipWith, List.length_tail, hlen] at h1
        omega
      rw [List.getElem_zipWith, List.getElem_tail, List.getElem_replicate]
      rw [linspace_getElem lo hi n hn (i + 1) (by omega),
        linspace_getElem lo hi n hn i (by omega)]
      push_cast
      field_simp
      ring
  · unfold rounding
    split
    · simp only [Bool.false_eq_true, false_iff]
      exact not_le.mpr (by assumption)
    · simp only [true_iff]
      exact not_lt.mp (by assumption)

/-- C8 witness: the (2, 4, 21) binning scenario instantiates the general
binning theorem; the gap is (4 - 2) / 20 = 1/10. -/
theorem fips_mapping_binning_witness :
    (linspace 2 4 21).length = 21 ∧
    (linspace 2 4 21).head? = some 2 ∧
    (linspace 2 4 21).getLast? = some 4 ∧
    List.zipWith (fun a b => b - a) (linspace 2 4 21) (linspace 2 4 21).tail
      = List.replicate 20 ((4 - 2) / ((21 : ℚ) - 1)) ∧
    (rounding 4 = true ↔ 10 ≤ (4 : ℚ)) :=
  fips_mapping_binning 2 4 21 (by norm_num)

/-- C9 counterexample: in the (2, 4, 21) scenario the max endpoint is 4 and
the code sets the rounding flag to False, so legend values are NOT rounded,
contradicting the claim that rounding applies there. -/
theorem rounding_scenario_cex : ¬ (rounding 4 = true) := by decide

/-- C9 amended: in the (2, 4, 21) binning scenario legend values are not
rounded: the rounding flag is false because the max endpoint 4 is below 10;
in general the flag is false exactly when the max endpoint is below 10. -/
theorem rounding_scenario : rounding 4 = false ∧ ((4 : ℚ) < 10) ∧
    ∀ x : ℚ, rounding x = false ↔ x < 10 := by
  refine ⟨by decide, by norm_num, ?_⟩
  intro x
  unfold rounding
  split
  · simp only [true_iff]; assumption
  · simp only [Bool.true_eq_false, false_iff]; assumption

/-- Every element of a diff tail is an adjacent pair of the list headed by
the carrier of the previous value, and its diff subtracts that neighbour. -/
theorem diffFrom_adjacent (x : Row) (l : List Row) (p : Row × Option ℚ)
    (hp : p ∈ diffFrom x.value l) :
    ∃ l₁ a l₂, x :: l = l₁ ++ a :: p.1 :: l₂ ∧ p.2 = some (p.1.value - a.value) := by
  induction l generalizing x with
  | nil => simp [diffFrom] at hp
  | cons r rs ih =>
    simp only [diffFrom, List.mem_cons] at hp
    rcases hp with hp | hp
    · subst hp
      exact ⟨[], x, rs, rfl, rfl⟩
    · obtain ⟨l₁, a, l₂, heq, hv⟩ := ih r hp
      exact ⟨x :: l₁, a, l₂, by rw [List.cons_append, ← heq], hv⟩

/-- The rows of a diff tail are rows of the underlying list. -/
theorem diffFrom_fst_mem (v : ℚ) (l : List Row) (p : Row × Option ℚ)
    (hp : p ∈ diffFrom v l) : p.1 ∈ l := by
  induction l generalizing v with
  | nil => simp [diffFrom] at hp
  | cons r rs ih =>
    simp only [diffFrom, List.mem_cons] at hp
    rcases hp with hp | hp
    · subst hp; exact List.mem_cons_self _ _
    · exact List.mem_cons_of_mem _ (ih r.value hp)

/-- Case split for membership in a diffed table: the head row with NaN diff,
or an element of the diff tail. -/
theorem mem_withDiff_cases (l : List Row) (p : Row × Option ℚ) (hp : p ∈ withDiff l) :
    (∃ r rs, l = r :: rs ∧ p = (r, none)) ∨
    (∃ x rs, l = x :: rs ∧ p ∈ diffFrom x.value rs) := by
  cases l with
  | nil => simp [withDiff] at hp
  | cons r rs =>
    simp only [withDiff, List.mem_cons] at hp
    rcases hp with hp | hp
    · exact Or.inl ⟨r, rs, rfl, hp⟩
    · exact Or.inr ⟨r, rs, rfl, hp⟩

/-- In a list of length at most one any two elements coincide. -/
theorem length_le_one_elems {α : Type} {l : List α} (h : l.length ≤ 1) :
    ∀ x ∈ l, ∀ y ∈ l, x = y := by
  cases l with
  | nil => simp
  | cons a as =>
    cases as with
    | nil => simp
    | cons b bs =>
      exfalso
      simp only [List.length_cons] at h
      omega

/-- Two adjacent rows of the sorted table whose right member is not from the
sentinel year 2011 belong to the same (fips, stover_removal) group — the left
one being the group's latest earlier year — provided every group contains
year 2011, years are at least 2011, and keys are unique. -/
theorem sorted_adjacent_group (t : List Row)
    (hmin : ∀ r ∈ t, 2011 ≤ r.simyear)
    (hbase : ∀ r ∈ t, ∃ c ∈ t, c.fips = r.fips ∧ c.removal = r.removal ∧ c.simyear = 2011)
    (hnodup : (t.map Row.key).Nodup)
    (l₁ l₂ : List Row) (a b : Row)
    (hs : sortValues t = l₁ ++ a :: b :: l₂)
    (hb2011 : b.simyear ≠ 2011) :
    a.fips = b.fips ∧ a.removal = b.removal ∧ a.simyear < b.simyear ∧
      (∀ u ∈ t, u.fips = b.fips → u.removal = b.removal →
        u.simyear ≤ a.simyear ∨ b.simyear ≤ u.simyear) := by
  have hperm : (l₁ ++ a :: b :: l₂).Perm t := by
    rw [← hs]; exact List.perm_insertionSort rowLe t
  have hsorted : List.Sorted rowLe (l₁ ++ a :: b :: l₂) := by
    rw [← hs]; exact List.sorted_insertionSort rowLe t
  have hsplit := List.pairwise_append.mp hsorted
  have hmid : ∀ u ∈ l₁, ∀ v ∈ a :: b :: l₂, rowLe u v := hsplit.2.2
  have hcons1 := List.pairwise_cons.mp hsplit.2.1
  have ha_all : ∀ v ∈ b :: l₂, rowLe a v := hcons1.1
  have hb_all : ∀ v ∈ l₂, rowLe b v := (List.pairwise_cons.mp hcons1.2).1
  have hab : rowLe a b := ha_all b (List.mem_cons_self _ _)
  have hbt : b ∈ t := hperm.subset (by simp)
  obtain ⟨c, hct, hcf, hcr, hcy⟩ := hbase b hbt
  have hby : 2011 < b.simyear := by
    have := hmin b hbt; omega
  have hcs : c ∈ l₁ ++ a :: b :: l₂ := hperm.symm.subset hct
  have hnd : ((l₁ ++ a :: b :: l₂).map Row.key).Nodup :=
    ((hperm.map Row.key).nodup_iff).mpr hnodup
  have hkeyab : ¬ (a.fips = b.fips ∧ a.removal.idx = b.removal.idx
      ∧ a.simyear = b.simyear) := by
    intro hk
    have hmaps : (l₁ ++ a :: b :: l₂).map Row.key
        = l₁.map Row.key ++ Row.key a :: Row.key b :: l₂.map Row.key := by
      simp
    rw [hmaps] at hnd
    have hnd2 := (List.nodup_append.mp hnd).2.1
    have hne := (List.nodup_cons.mp hnd2).1
    apply hne
    have hkeq : Row.key a = Row.key b := by
      unfold Row.key
      rw [hk.1, hk.2.1, hk.2.2]
    rw [hkeq]
    exact List.mem_cons_self _ _
  have hcridx : c.removal.idx = b.removal.idx := by rw [hcr]
  have hsame : a.fips = b.fips ∧ a.removal.idx = b.removal.idx
      ∧ a.simyear < b.simyear := by
    rcases List.mem_append.mp hcs with hc1 | hc2
    · have hca : rowLe c a := hmid c hc1 a (List.mem_cons_self _ _)
      unfold rowLe at hca hab
      omega
    · rcases List.mem_cons.mp hc2 with hc | hc2
      · subst hc
        refine ⟨hcf, hcridx, ?_⟩
        omega
      · rcases List.mem_cons.mp hc2 with hc | hc3
        · subst hc
          exact absurd hcy hb2011
        · have hbc : rowLe b c := hb_all c hc3
          unfold rowLe at hbc
          omega
  have hremoval : a.removal = b.removal := by
    have hidx : ∀ x y : Treatment, x.idx = y.idx → x = y := by
      intro x y h
      cases x <;> cases y <;> first | rfl | (exfalso; simp [Treatment.idx] at h)
    exact hidx _ _ hsame.2.1
  refine ⟨hsame.1, hremoval, hsame.2.2, ?_⟩
  intro u hut huf hur
  have huridx : u.removal.idx = b.removal.idx := by rw [hur]
  have hus : u ∈ l₁ ++ a :: b :: l₂ := hperm.symm.subset hut
  rcases List.mem_append.mp hus with hu1 | hu2
  · have hua : rowLe u a := hmid u hu1 a (List.mem_cons_self _ _)
    unfold rowLe at hua
    left
    omega
  · rcases List.mem_cons.mp hu2 with hu | hu2
    · subst hu
      left
      exact le_rfl
    · rcases List.mem_cons.mp hu2 with hu | hu3
      · subst hu
        right
        exact le_rfl
      · have hbu : rowLe b u := hb_all u hu3
        unfold rowLe at hbu
        right
        omega

/-- C1 counterexample: in `cexTable` the group (1, G25S) holds a single year
(2012), yet after differencing it contributes one surviving row whose
difference 100 - 12 subtracts the value 12 of the other group (1, G) — the
claim that such a group contributes zero rows and that no cross-group
difference survives fails on the code, whose filter only removes rows of the
hardcoded year 2011. -/
theorem socDiff_cross_group_cex :
    (cexTable.filter (fun r => r.fips = 1 ∧ r.removal = Treatment.G25S)).length = 1 ∧
    (socDiff cexTable).filter (fun p => p.1.fips = 1 ∧ p.1.removal = Treatment.G25S)
      = [(⟨1, Treatment.G25S, 2012, 100⟩, some (100 - 12))] := by
  constructor
  · simp [cexTable, List.filter]
  · simp [socDiff, cexTable, sortValues, List.insertionSort, List.orderedInsert, rowLe,
      Treatment.idx, withDiff, diffFrom, List.filter]

/-- C1 amended: provided every (fips, stover_removal) group contains the
sentinel year 2011, no year precedes 2011, and (fips, stover_removal,
simyear) triples are unique, the differencing block behaves as claimed:
every surviving row's difference is its value minus the value of the same
group's latest earlier year, rows of the sentinel year 2011 (each group's
first row) are removed, and a group with a single year contributes zero
surviving rows. -/
theorem socDiff_within_group (t : List Row)
    (hmin : ∀ r ∈ t, 2011 ≤ r.simyear)
    (hbase : ∀ r ∈ t, ∃ c ∈ t, c.fips = r.fips ∧ c.removal = r.removal ∧ c.simyear = 2011)
    (hnodup : (t.map Row.key).Nodup) :
    (∀ p ∈ socDiff t, p.1.simyear ≠ 2011) ∧
    (∀ p ∈ socDiff t, ∃ a ∈ t, a.fips = p.1.fips ∧ a.removal = p.1.removal ∧
        a.simyear < p.1.simyear ∧ p.2 = some (p.1.value - a.value) ∧
        (∀ u ∈ t, u.fips = p.1.fips → u.removal = p.1.removal →
          u.simyear ≤ a.simyear ∨ p.1.simyear ≤ u.simyear)) ∧
    (∀ f tr, (t.filter (fun r => r.fips = f ∧ r.removal = tr)).length ≤ 1 →
        (socDiff t).filter (fun p => p.1.fips = f ∧ p.1.removal = tr) = []) := by
  have hperm : (sortValues t).Perm t := List.perm_insertionSort rowLe t
  have part1 : ∀ p ∈ socDiff t, p.1.simyear ≠ 2011 := by
    intro p hp
    simp only [socDiff] at hp
    have h2 := (List.mem_filter.mp hp).2
    simpa using h2
  have part2 : ∀ p ∈ socDiff t, ∃ a ∈ t, a.fips = p.1.fips ∧ a.removal = p.1.removal ∧
      a.simyear < p.1.simyear ∧ p.2 = some (p.1.value - a.value) ∧
      (∀ u ∈ t, u.fips = p.1.fips → u.removal = p.1.removal →
        u.simyear ≤ a.simyear ∨ p.1.simyear ≤ u.simyear) := by
    intro p hp
    have hpy := part1 p hp
    simp only [socDiff] at hp
    have hpw := (List.mem_filter.mp hp).1
    rcases mem_withDiff_cases _ p hpw with ⟨r, rs, hsr, hpr⟩ | ⟨x, rs, hsr, hpd⟩
    · exfalso
      have hrt : r ∈ t := hperm.subset (by rw [hsr]; exact List.mem_cons_self _ _)
      obtain ⟨c, hct, hcf, hcr, hcy⟩ := hbase r hrt
      have hcs : c ∈ sortValues t := hperm.symm.subset hct
      have hsorted : List.Sorted rowLe (sortValues t) := List.sorted_insertionSort rowLe t
      rw [hsr] at hcs hsorted
      have hr2011 : r.simyear = 2011 := by
        rcases List.mem_cons.mp hcs with hc | hc
        · rw [← hc]; exact hcy
        · have hrc : rowLe r c := (List.pairwise_cons.mp hsorted).1 c hc
          unfold rowLe at hrc
          have hminr := hmin r hrt
          have hcridx : c.removal.idx = r.removal.idx := by rw [hcr]
          omega
      rw [hpr] at hpy
      exact hpy hr2011
    · obtain ⟨l₁, a, l₂, heq, hv⟩ := diffFrom_adjacent x rs p hpd
      have hs2 : sortValues t = l₁ ++ a :: p.1 :: l₂ := hsr.trans heq
      obtain ⟨hf, hr, hy, hu⟩ :=
        sorted_adjacent_group t hmin hbase hnodup l₁ l₂ a p.1 hs2 hpy
      have hat : a ∈ t := hperm.subset (by rw [hs2]; simp)
      exact ⟨a, hat, hf, hr, hy, hv, hu⟩
  refine ⟨part1, part2, ?_⟩
  intro f tr hlen
  rw [List.eq_nil_iff_forall_not_mem]
  intro p hpmem
  have hsplit2 := List.mem_filter.mp hpmem
  have hp := hsplit2.1
  have hgrp : p.1.fips = f ∧ p.1.removal = tr := by simpa using hsplit2.2
  obtain ⟨a, hat, hf, hr, hy, hv, hu⟩ := part2 p hp
  have hp1t : p.1 ∈ t := by
    simp only [socDiff] at hp
    have hpw := (List.mem_filter.mp hp).1
    rcases mem_withDiff_cases _ p hpw with ⟨r, rs, hsr, hpr⟩ | ⟨x, rs, hsr, hpd⟩
    · apply hperm.subset
      rw [hsr, hpr]
      exact List.mem_cons_self _ _
    · apply hperm.subset
      rw [hsr]
      exact List.mem_cons_of_mem _ (diffFrom_fst_mem _ _ _ hpd)
  have hmema : a ∈ t.filter (fun r => r.fips = f ∧ r.removal = tr) := by
    rw [List.mem_filter]
    refine ⟨hat, ?_⟩
    simp [hf, hr, hgrp.1, hgrp.2]
  have hmemp : p.1 ∈ t.filter (fun r => r.fips = f ∧ r.removal = tr) := by
    rw [List.mem_filter]
    exact ⟨hp1t, by simp [hgrp.1, hgrp.2]⟩
  have heqap := length_le_one_elems hlen a hmema p.1 hmemp
  rw [heqap] at hy
  omega

/-- C1 witness: the table `goodTable`, in which every group starts at 2011
with unique keys, satisfies the hypotheses and hence the amended claim. -/
theorem socDiff_within_group_witness :
    (∀ p ∈ socDiff goodTable, p.1.simyear ≠ 2011) ∧
    (∀ p ∈ socDiff goodTable, ∃ a ∈ goodTable, a.fips = p.1.fips
        ∧ a.removal = p.1.removal ∧
        a.simyear < p.1.simyear ∧ p.2 = some (p.1.value - a.value) ∧
        (∀ u ∈ goodTable, u.fips = p.1.fips → u.removal = p.1.removal →
          u.simyear ≤ a.simyear ∨ p.1.simyear ≤ u.simyear)) ∧
    (∀ f tr, (goodTable.filter (fun r => r.fips = f ∧ r.removal = tr)).length ≤ 1 →
        (socDiff goodTable).filter (fun p => p.1.fips = f ∧ p.1.removal = tr) = []) :=
  socDiff_within_group goodTable (by decide) (by decide) (by decide)

/-- C2: on the scenario table whose (5, G) group has years 2011, 2012, 2013
with values 10, 12, 15, the differenced output restricted to that group is
exactly the rows (2012, 12 - 10) and (2013, 15 - 12); furthermore every row
whose simyear equals the sentinel 2011 is removed from any differenced table. -/
theorem socDiff_scenario :
    ((socDiff socScenario).filter (fun p => p.1.fips = 5 ∧ p.1.removal = Treatment.G))
      = [(⟨5, Treatment.G, 2012, 12⟩, some (12 - 10)),
         (⟨5, Treatment.G, 2013, 15⟩, some (15 - 12))] ∧
    ∀ t : List Row, (socDiff t).all (fun p => p.1.simyear ≠ 2011) = true := by
  constructor
  · simp [socDiff, socScenario, sortValues, List.insertionSort, List.orderedInsert, rowLe,
      Treatment.idx, withDiff, diffFrom, List.filter]
  · intro t
    rw [List.all_eq_true]
    intro p hp
    simp only [socDiff] at hp
    exact (List.mem_filter.mp hp).2

/-- C7: aggregation produces exactly one row per distinct (fips,
stover_removal) pair present in the input (keys duplicate-free), the row's
value is the arithmetic mean of all matching rows' values (ignoring
simyear), and the result is invariant under permutation of the input rows. -/
theorem groupbyMean_correct (t : List Row) :
    ((groupbyMean t).map Prod.fst).Nodup ∧
    (∀ k, k ∈ (groupbyMean t).map Prod.fst ↔ k ∈ t.map gkey) ∧
    (∀ p ∈ groupbyMean t,
        p.2 = ((t.filter (fun r => gkey r = p.1)).map Row.value).sum
          / ((t.filter (fun r => gkey r = p.1)).length : ℚ)) ∧
    (∀ t' : List Row, t'.Perm t → groupbyMean t' = groupbyMean t) := by
  have hmapfst : ∀ u : List Row, (groupbyMean u).map Prod.fst
      = List.insertionSort keyLe (u.map gkey).dedup := by
    intro u
    unfold groupbyMean
    rw [List.map_map]
    have hcomp : (Prod.fst ∘ fun k : ℕ × Treatment => (k, groupMean u k)) = id := rfl
    rw [hcomp, List.map_id]
  refine ⟨?_, ?_, ?_, ?_⟩
  · rw [hmapfst]
    exact ((List.perm_insertionSort keyLe _).nodup_iff).mpr (List.nodup_dedup _)
  · intro k
    rw [hmapfst]
    rw [(List.perm_insertionSort keyLe _).mem_iff, List.mem_dedup]
  · rintro p hp
    simp only [groupbyMean, List.mem_map] at hp
    obtain ⟨k, hk, rfl⟩ := hp
    rfl
  · intro t' hperm
    unfold groupbyMean
    have hkeys : List.insertionSort keyLe (t'.map gkey).dedup
        = List.insertionSort keyLe (t.map gkey).dedup := by
      have hp2 : (List.insertionSort keyLe (t'.map gkey).dedup).Perm
          (List.insertionSort keyLe (t.map gkey).dedup) :=
        ((List.perm_insertionSort keyLe _).trans ((hperm.map gkey).dedup)).trans
          (List.perm_insertionSort keyLe _).symm
      exact List.eq_of_perm_of_sorted hp2 (List.sorted_insertionSort keyLe _)
        (List.sorted_insertionSort keyLe _)
    rw [hkeys]
    have hmean : ∀ k, groupMean t' k = groupMean t k := by
      intro k
      unfold groupMean groupRows
      have hfil := hperm.filter (fun r => decide (gkey r = k))
      rw [(hfil.map Row.value).sum_eq, hfil.length_eq]
    simp only [hmean]

/-- C7 witness: on the concrete table `aggTableA` and its reversal the
aggregation agrees, and the (1, G) group's output row carries the mean of
that group's values. -/
theorem groupbyMean_witness :
    groupbyMean aggTableB = groupbyMean aggTableA ∧
    ((1, Treatment.G), groupMean aggTableA (1, Treatment.G)).2
      = ((aggTableA.filter (fun r => gkey r = ((1, Treatment.G),
          groupMean aggTableA (1, Treatment.G)).1)).map Row.value).sum
        / ((aggTableA.filter (fun r => gkey r = ((1, Treatment.G),
            groupMean aggTableA (1, Treatment.G)).1)).length : ℚ) := by
  have hmem : ((1, Treatment.G), groupMean aggTableA (1, Treatment.G))
      ∈ groupbyMean aggTableA := by
    unfold groupbyMean
    apply List.mem_map_of_mem
    rw [(List.perm_insertionSort keyLe _).mem_iff, List.mem_dedup]
    simp [aggTableA, gkey]
  exact ⟨(groupbyMean_correct aggTableA).2.2.2 aggTableB (List.reverse_perm aggTableA),
    (groupbyMean_correct aggTableA).2.2.1 _ hmem⟩

/-- Lookup into a pairwise inner merge factors through the lookups into the
two operands. -/
theorem lookupKey_innerMerge {α β : Type} (k : ℕ × Treatment)
    (t1 : List ((ℕ × Treatment) × α)) (t2 : List ((ℕ × Treatment) × β)) :
    lookupKey k (innerMerge t1 t2)
      = Option.map₂ Prod.mk (lookupKey k t1) (lookupKey k t2) := by
  induction t1 with
  | nil => simp [innerMerge, lookupKey]
  | cons p rest ih =>
    cases h2 : lookupKey p.1 t2 with
    | none =>
      by_cases hk : p.1 = k
      · subst hk
        have hnone : lookupKey p.1 (innerMerge rest t2) = none := by
          rw [ih, h2, Option.map₂_none_right]
        simp [innerMerge, h2, lookupKey, hnone, Option.map₂_none_right]
      · simp only [innerMerge, h2, lookupKey, if_neg hk]
        exact ih
    | some b =>
      by_cases hk : p.1 = k
      · subst hk
        simp [innerMerge, h2, lookupKey, Option.map₂]
      · simp only [innerMerge, h2, lookupKey, if_neg hk]
        exact ih

/-- A key occurs in the key column exactly when its lookup succeeds. -/
theorem mem_keysOf_iff {α : Type} (k : ℕ × Treatment)
    (t : List ((ℕ × Treatment) × α)) :
    k ∈ keysOf t ↔ (lookupKey k t).isSome = true := by
  induction t with
  | nil => simp [keysOf, lookupKey]
  | cons p rest ih =>
    by_cases hk : p.1 = k
    · subst hk
      simp [keysOf, lookupKey]
    · simp only [keysOf, List.map_cons, List.mem_cons, lookupKey, if_neg hk]
      rw [← keysOf]
      rw [ih]
      constructor
      · rintro (h | h)
        · exact absurd h.symm hk
        · exact h
      · exact fun h => Or.inr h

/-- C4: the merge of the five aggregated tables is a strict inner join on the
(fips, stover_removal) key: a key appears in the merged output exactly when
it appears in all five inputs, and the merged row carries each input's value
verbatim. -/
theorem merge5_inner_join (c s st so n : List ((ℕ × Treatment) × ℚ)) :
    (∀ k, k ∈ keysOf (merge5 c s st so n)
        ↔ (k ∈ keysOf c ∧ k ∈ keysOf s ∧ k ∈ keysOf st ∧ k ∈ keysOf so ∧ k ∈ keysOf n)) ∧
    (∀ k, lookupKey k (merge5 c s st so n)
        = Option.map₂ Prod.mk (Option.map₂ Prod.mk (Option.map₂ Prod.mk
            (Option.map₂ Prod.mk (lookupKey k c) (lookupKey k s)) (lookupKey k st))
              (lookupKey k so)) (lookupKey k n)) := by
  have hl : ∀ k, lookupKey k (merge5 c s st so n)
      = Option.map₂ Prod.mk (Option.map₂ Prod.mk (Option.map₂ Prod.mk
          (Option.map₂ Prod.mk (lookupKey k c) (lookupKey k s)) (lookupKey k st))
            (lookupKey k so)) (lookupKey k n) := by
    intro k
    unfold merge5
    rw [lookupKey_innerMerge, lookupKey_innerMerge, lookupKey_innerMerge, lookupKey_innerMerge]
  refine ⟨?_, hl⟩
  intro k
  rw [mem_keysOf_iff, hl k, mem_keysOf_iff, mem_keysOf_iff, mem_keysOf_iff,
    mem_keysOf_iff, mem_keysOf_iff]
  cases lookupKey k c <;> cases lookupKey k s <;> cases lookupKey k st <;>
    cases lookupKey k so <;> cases lookupKey k n <;> simp [Option.map₂]

/-- C5: for every location whose four treatments are all present in the
merged table, each derived relative column equals the treatment value minus
the baseline G value (for both the dSOC and the N2O metric), and the
dSOC_MgStover ratio equals the 25 percent dSOC relative delta divided by the
25 percent stover yield. -/
theorem pivot_relative_correct (df : List ((ℕ × Treatment) × MergedVal)) (f : ℕ)
    (v : Treatment → MergedVal) (hv : ∀ tr, lookupKey (f, tr) df = some (v tr)) :
    dSOC_G25S_relative df f = some ((v Treatment.G25S).dsoc - (v Treatment.G).dsoc) ∧
    dSOC_G50S_relative df f = some ((v Treatment.G50S).dsoc - (v Treatment.G).dsoc) ∧
    dSOC_G75S_relative df f = some ((v Treatment.G75S).dsoc - (v Treatment.G).dsoc) ∧
    dN2O_G25S_relative df f = some ((v Treatment.G25S).n2o - (v Treatment.G).n2o) ∧
    dN2O_G50S_relative df f = some ((v Treatment.G50S).n2o - (v Treatment.G).n2o) ∧
    dN2O_G75S_relative df f = some ((v Treatment.G75S).n2o - (v Treatment.G).n2o) ∧
    dSOC_MgStover df f
      = some (((v Treatment.G25S).dsoc - (v Treatment.G).dsoc) / (v Treatment.G25S).stover) := by
  refine ⟨?_, ?_, ?_, ?_, ?_, ?_, ?_⟩ <;>
    simp [dSOC_G25S_relative, dSOC_G50S_relative, dSOC_G75S_relative, dN2O_G25S_relative,
      dN2O_G50S_relative, dN2O_G75S_relative, dSOC_MgStover, pivotCell, hv, Option.map₂]

/-- C5 witness: the concrete merged table `pivotEx` for county 7 satisfies
the lookup hypothesis and hence all seven derived-column equations. -/
theorem pivot_relative_witness :
    (∀ tr, lookupKey (7, tr) pivotEx = some (vEx tr)) ∧
    (dSOC_G25S_relative pivotEx 7 = some ((vEx Treatment.G25S).dsoc - (vEx Treatment.G).dsoc) ∧
     dSOC_G50S_relative pivotEx 7 = some ((vEx Treatment.G50S).dsoc - (vEx Treatment.G).dsoc) ∧
     dSOC_G75S_relative pivotEx 7 = some ((vEx Treatment.G75S).dsoc - (vEx Treatment.G).dsoc) ∧
     dN2O_G25S_relative pivotEx 7 = some ((vEx Treatment.G25S).n2o - (vEx Treatment.G).n2o) ∧
     dN2O_G50S_relative pivotEx 7 = some ((vEx Treatment.G50S).n2o - (vEx Treatment.G).n2o) ∧
     dN2O_G75S_relative pivotEx 7 = some ((vEx Treatment.G75S).n2o - (vEx Treatment.G).n2o) ∧
     dSOC_MgStover pivotEx 7
       = some (((vEx Treatment.G25S).dsoc - (vEx Treatment.G).dsoc)
           / (vEx Treatment.G25S).stover)) := by
  have hv : ∀ tr, lookupKey (7, tr) pivotEx = some (vEx tr) := by
    intro tr
    cases tr <;> rfl
  exact ⟨hv, pivot_relative_correct pivotEx 7 vEx hv⟩

/-- C10: when the baseline treatment G is absent for a location, the derived
relative columns and the ratio column of that location are missing values
(pandas NaN), no error is raised, and the derived values of any location
depend only on that location's own rows, so other locations are unaffected. -/
theorem missing_baseline_propagates (df df' : List ((ℕ × Treatment) × MergedVal))
    (f g : ℕ) (hf : lookupKey (f, Treatment.G) df = none)
    (hagree : ∀ tr, lookupKey (g, tr) df = lookupKey (g, tr) df') :
    (dSOC_G25S_relative df f = none ∧ dSOC_G50S_relative df f = none ∧
     dSOC_G75S_relative df f = none ∧ dN2O_G25S_relative df f = none ∧
     dN2O_G50S_relative df f = none ∧ dN2O_G75S_relative df f = none ∧
     dSOC_MgStover df f = none) ∧
    (dSOC_G25S_relative df g = dSOC_G25S_relative df' g ∧
     dSOC_G50S_relative df g = dSOC_G50S_relative df' g ∧
     dSOC_G75S_relative df g = dSOC_G75S_relative df' g ∧
     dN2O_G25S_relative df g = dN2O_G25S_relative df' g ∧
     dN2O_G50S_relative df g = dN2O_G50S_relative df' g ∧
     dN2O_G75S_relative df g = dN2O_G75S_relative df' g ∧
     dSOC_MgStover df g = dSOC_MgStover df' g) := by
  have h1 : dSOC_G25S_relative df f = none := by
    simp [dSOC_G25S_relative, pivotCell, hf, Option.map₂_none_right]
  constructor
  · refine ⟨h1, ?_, ?_, ?_, ?_, ?_, ?_⟩
    · simp [dSOC_G50S_relative, pivotCell, hf, Option.map₂_none_right]
    · simp [dSOC_G75S_relative, pivotCell, hf, Option.map₂_none_right]
    · simp [dN2O_G25S_relative, pivotCell, hf, Option.map₂_none_right]
    · simp [dN2O_G50S_relative, pivotCell, hf, Option.map₂_none_right]
    · simp [dN2O_G75S_relative, pivotCell, hf, Option.map₂_none_right]
    · simp [dSOC_MgStover, h1, Option.map₂_none_left]
  · have hcell : ∀ (col : MergedVal → ℚ) (tr : Treatment),
        pivotCell df col tr g = pivotCell df' col tr g := by
      intro col tr
      simp [pivotCell, hagree tr]
    refine ⟨?_, ?_, ?_, ?_, ?_, ?_, ?_⟩ <;>
      simp [dSOC_G25S_relative, dSOC_G50S_relative, dSOC_G75S_relative, dN2O_G25S_relative,
        dN2O_G50S_relative, dN2O_G75S_relative, dSOC_MgStover, hcell]

/-- C10 witness: in `pivotMissingG` county 3 lacks the baseline G, and the
table `pivotMissingG2` extends it with another county-3 row only, leaving
county 7's rows untouched; the theorem applies with these inputs. -/
theorem missing_baseline_witness :
    (dSOC_G25S_relative pivotMissingG 3 = none ∧ dSOC_G50S_relative pivotMissingG 3 = none ∧
     dSOC_G75S_relative pivotMissingG 3 = none ∧ dN2O_G25S_relative pivotMissingG 3 = none ∧
     dN2O_G50S_relative pivotMissingG 3 = none ∧ dN2O_G75S_relative pivotMissingG 3 = none ∧
     dSOC_MgStover pivotMissingG 3 = none) ∧
    (dSOC_G25S_relative pivotMissingG 7 = dSOC_G25S_relative pivotMissingG2 7 ∧
     dSOC_G50S_relative pivotMissingG 7 = dSOC_G50S_relative pivotMissingG2 7 ∧
     dSOC_G75S_relative pivotMissingG 7 = dSOC_G75S_relative pivotMissingG2 7 ∧
     dN2O_G25S_relative pivotMissingG 7 = dN2O_G25S_relative pivotMissingG2 7 ∧
     dN2O_G50S_relative pivotMissingG 7 = dN2O_G50S_relative pivotMissingG2 7 ∧
     dN2O_G75S_relative pivotMissingG 7 = dN2O_G75S_relative pivotMissingG2 7 ∧
     dSOC_MgStover pivotMissingG 7 = dSOC_MgStover pivotMissingG2 7) :=
  missing_baseline_propagates pivotMissingG pivotMissingG2 3 7 (by rfl)
    (by intro tr; cases tr <;> rfl)

/-- Exact value of the aggregated converted corn yield of the scenario. -/
theorem cornAggValue_eval : cornAggValue = 39562369 / 4046860 := by
  simp [cornAggValue, groupMean, groupRows, convertUnits, cornScenario, gkey,
    List.filter, cornFactor, kg_per_bu_CORN, ha_per_ACRE]
  norm_num

/-- C6 counterexample: the end-to-end corn scenario value is the mean times
the conversion factor, but it is about 9.776 Mg per ha, not within 0.01 of
the claimed 9.99. -/
theorem corn_scenario_cex :
    ¬ (cornAggValue = (623 / 4) * ((kg_per_bu_CORN * (1 / 1000)) / ha_per_ACRE) ∧
       |cornAggValue - 999 / 100| ≤ 1 / 100) := by
  rw [cornAggValue_eval]
  intro hc
  have h2 := hc.2
  rw [abs_le] at h2
  norm_num at h2

/-- C6 amended: the aggregated converted corn yield of the scenario equals
mean(150, 160, 155, 158) times (25.4012 x 0.001 / 0.404686), which is about
9.78 Mg per ha (within 0.01), not 9.99. -/
theorem corn_scenario_value :
    cornAggValue = (623 / 4) * ((kg_per_bu_CORN * (1 / 1000)) / ha_per_ACRE) ∧
    |cornAggValue - 978 / 100| ≤ 1 / 100 := by
  rw [cornAggValue_eval]
  constructor
  · norm_num [kg_per_bu_CORN, ha_per_ACRE]
  · rw [abs_le]; norm_num

end Stover
